import Mathlib

/-!
# Verification of the set-decoder identification pipeline

Shallow embedding of `src/backend/main.py` (the "Set Decoder" backend):
the name normalizer (`normalize_track_name`), the similarity comparator
(`tracks_are_similar`, including a faithful model of Python's
`difflib.SequenceMatcher.ratio`), the identification-client adapter
(`identify_segment`), the timestamp formatter, and the segment-scan /
deduplication fold of `process_set`.

Modelling conventions:
* Python strings are modelled as `List Char` internally (with `String`
  wrappers at the API).  Character classes (`\w`, `\s`, `str.lower`) are
  modelled over ASCII, which covers the character sets the program's
  constants and comparisons are defined on.
* Python `int` values arising here are all non-negative (`start_time`
  ranges over `range(0, duration, stride)` and `max(0, ...)` clamps), so
  they are modelled as `Nat`; `Nat` truncated subtraction coincides with
  `max(0, a - b)`.
* Optional / nullable JSON fields are `Option`; a field that may be
  *absent or null* (where the code distinguishes the two via
  `dict.get(k, default)` versus truthiness) is `Option (Option _)` with
  `none` = key absent and `some none` = key present but null.
* Fallible code paths (Python exceptions caught by `try/except`) are
  `Except String _`.
-/

namespace SetDecoder

set_option maxRecDepth 200000

/-! ## Character classes (ASCII models of Python's `\w`, `\s`, `str.lower`) -/

/-- Model of the regex class `\w` (word character): alphanumeric or underscore. -/
def isWordChar (c : Char) : Bool := c.isAlphanum || c = '_'

/-- Model of the regex class `\s` / `str.split()` whitespace. -/
def isSpaceChar (c : Char) : Bool := c.isWhitespace

/-- ASCII case table used to model `str.lower`. -/
def upperLowerPairs : List (Char × Char) :=
  [('A', 'a'), ('B', 'b'), ('C', 'c'), ('D', 'd'), ('E', 'e'), ('F', 'f'),
   ('G', 'g'), ('H', 'h'), ('I', 'i'), ('J', 'j'), ('K', 'k'), ('L', 'l'),
   ('M', 'm'), ('N', 'n'), ('O', 'o'), ('P', 'p'), ('Q', 'q'), ('R', 'r'),
   ('S', 's'), ('T', 't'), ('U', 'u'), ('V', 'v'), ('W', 'w'), ('X', 'x'),
   ('Y', 'y'), ('Z', 'z')]

/-- Model of `str.lower` on one character (ASCII). -/
def lowerChar (c : Char) : Char :=
  ((upperLowerPairs.find? (fun p => p.1 = c)).map Prod.snd).getD c

/-- Model of `str.lower` on a string. -/
def lowerChars (s : List Char) : List Char := s.map lowerChar

/-- Model of `str.strip()`: drop leading and trailing whitespace. -/
def stripChars (s : List Char) : List Char :=
  ((s.dropWhile isSpaceChar).reverse.dropWhile isSpaceChar).reverse

/-! ## `re.sub(r"\([^)]*\)", "", title)` and the bracketed variant -/

/-- State machine for one `re.sub` pass deleting `op [^cl]* cl` groups:
`buf = some pending` means an `op` was seen and `pending` holds the
characters read since (reversed, `op` included) while looking for `cl`; if
the input ends first, the pending characters were not part of any match and
are emitted unchanged (no `cl` remains, so no later group can close).
Structural recursion on the input keeps the function kernel-reducible. -/
def stripEnclosedAux (op cl : Char) : Option (List Char) → List Char → List Char
  | none, [] => []
  | some buf, [] => buf.reverse
  | none, c :: rest =>
    if c = op then stripEnclosedAux op cl (some [c]) rest
    else c :: stripEnclosedAux op cl none rest
  | some buf, c :: rest =>
    if c = cl then stripEnclosedAux op cl none rest
    else stripEnclosedAux op cl (some (c :: buf)) rest

/-- Model of `re.sub(rf"\{op}[^{cl}]*\{cl}", "", s)`: delete every
leftmost-first `op ... cl` group (shortest, since `[^cl]*` cannot cross
`cl`). -/
def stripEnclosed (op cl : Char) (s : List Char) : List Char :=
  stripEnclosedAux op cl none s

/-! ## Whole-word noise removal: `re.sub(rf"\b{word}\b", "", s)` -/

/-- The `\b` assertion before a word-character position: satisfied at the
start of the string or after a non-word character. -/
def boundaryBefore (prev : Option Char) : Bool :=
  match prev with
  | none => true
  | some c => !isWordChar c

/-- The `\b` assertion after a word: satisfied at end of string or before a
non-word character. -/
def boundaryAfter : List Char → Bool
  | [] => true
  | c :: _ => !isWordChar c

/-- One left-to-right pass of `re.sub(rf"\b{w}\b", "", s)` for the non-empty
word `wh :: wt` whose last character is `wlast`; `prev` is the character of
the *original* string immediately before the current position.  The `fuel`
argument only makes the recursion structural (each step consumes at least
one character, so `fuel = s.length` never runs out). -/
def removeWordFuel (wh : Char) (wt : List Char) (wlast : Char) :
    Nat → Option Char → List Char → List Char
  | 0, _, s => s
  | _ + 1, _, [] => []
  | fuel + 1, prev, c :: rest =>
    if (wh :: wt).isPrefixOf (c :: rest) && boundaryBefore prev &&
        boundaryAfter ((c :: rest).drop (wh :: wt).length) then
      removeWordFuel wh wt wlast fuel (some wlast) ((c :: rest).drop (wh :: wt).length)
    else
      c :: removeWordFuel wh wt wlast fuel (some c) rest

/-- Model of `re.sub(rf"\b{w}\b", "", s)`. -/
def removeWord (w : List Char) (s : List Char) : List Char :=
  match w with
  | [] => s
  | wh :: wt => removeWordFuel wh wt ((wh :: wt).getLast (by simp)) s.length none s

/-- The `remove_words` noise vocabulary, in source order. -/
def remove_words : List String :=
  ["remix", "edit", "bootleg", "mix", "version", "extended", "original",
   "radio", "club", "dub", "instrumental", "vip", "flip", "rework",
   "remaster", "remastered", "feat", "ft", "featuring", "prod", "produced"]

/-- The noise-word removal loop of `normalize_track_name` (applied to one of
the two strings; in the source the loop interleaves title and artist, but the
two strings are independent, so per-string sequencing is equivalent). -/
def removeNoiseWords (s : List Char) : List Char :=
  remove_words.foldl (fun acc w => removeWord w.data acc) s

/-- Model of `re.sub(r"[^\w\s]", "", s)`. -/
def stripNonWord (s : List Char) : List Char :=
  s.filter (fun c => isWordChar c || isSpaceChar c)

/-- Model of `str.split()` (no separator): split on whitespace runs,
dropping empty pieces; `cur` accumulates the current word, reversed. -/
def splitWsAcc (cur : List Char) : List Char → List (List Char)
  | [] => if cur.isEmpty then [] else [cur.reverse]
  | c :: rest =>
    if isSpaceChar c then
      if cur.isEmpty then splitWsAcc [] rest else cur.reverse :: splitWsAcc [] rest
    else splitWsAcc (c :: cur) rest

/-- Model of `str.split()` (no separator). -/
def splitWs (s : List Char) : List (List Char) := splitWsAcc [] s

/-- Model of `" ".join(ws)`. -/
def joinWords : List (List Char) → List Char
  | [] => []
  | [w] => w
  | w :: ws => w ++ ' ' :: joinWords ws

/-- Model of `" ".join(s.split())`: collapse whitespace runs to single
spaces and trim the ends. -/
def collapseWs (s : List Char) : List Char := joinWords (splitWs s)

/-! ## `normalize_track_name` -/

/-- The artist-side pipeline of `normalize_track_name`:
`artist.lower().strip()`, noise-word removal, `[^\w\s]` removal,
whitespace collapse. -/
def normalizeArtistChars (a : List Char) : List Char :=
  collapseWs (stripNonWord (removeNoiseWords (stripChars (lowerChars a))))

/-- The title-side pipeline of `normalize_track_name`: as the artist side,
plus removal of `(...)` and `[...]` groups before noise-word removal. -/
def normalizeTitleChars (t : List Char) : List Char :=
  collapseWs (stripNonWord (removeNoiseWords
    (stripEnclosed '[' ']' (stripEnclosed '(' ')' (stripChars (lowerChars t))))))

/-- The normalized artist part (what ends up before `" - "`). -/
def normalize_artist (artist : String) : String :=
  String.mk (normalizeArtistChars artist.data)

/-- The normalized title part (what ends up after `" - "`). -/
def normalize_title (title : String) : String :=
  String.mk (normalizeTitleChars title.data)

/-- Model of `normalize_track_name(artist, title)`: empty result if either
input is empty (Python falsiness of `str`), else `"<artist> - <title>"` over
the normalized parts. -/
def normalize_track_name (artist title : String) : String :=
  if artist = "" ∨ title = "" then ""
  else String.mk (normalizeArtistChars artist.data ++ (' ' :: '-' :: ' ' :: []) ++
        normalizeTitleChars title.data)

/-! ## `difflib.SequenceMatcher` (as used by `tracks_are_similar`)

Model of CPython's `difflib.SequenceMatcher(None, a, b)` for short strings:
`isjunk = None` and `len(b) < 200`, so there is no junk and no autojunk,
which is the regime of every call in the source (normalized track keys).
-/

/-- Ascending positions of `c` in `b` (the `b2j` table of `SequenceMatcher`). -/
def positionsOf (c : Char) (b : List Char) : List Nat :=
  (List.range b.length).filter (fun j => b.getD j ' ' = c)

/-- Inner loop of `find_longest_match` for one row `i`: walk the ascending
positions `js` of `a[i]` in `b`, skipping `j < blo` (`continue`) and stopping
at `j ≥ bhi` (`break`); `j2len` is the previous row's run-length table, the
returned table is the new row's.  `k = j2len.get(j-1, 0) + 1`, where a lookup
at `-1` (i.e. `j = 0`) misses. -/
def rowLoop (i blo bhi : Nat) (j2len : Nat → Nat) :
    List Nat → (Nat → Nat) → Nat × Nat × Nat → (Nat → Nat) × (Nat × Nat × Nat)
  | [], newj2len, best => (newj2len, best)
  | j :: js, newj2len, best =>
    if j < blo then rowLoop i blo bhi j2len js newj2len best
    else if bhi ≤ j then (newj2len, best)
    else
      let k := if j = 0 then 1 else j2len (j - 1) + 1
      let newj2len2 := fun j2 => if j2 = j then k else newj2len j2
      let best2 := if best.2.2 < k then (i + 1 - k, j + 1 - k, k) else best
      rowLoop i blo bhi j2len js newj2len2 best2

/-- Outer loop of `find_longest_match` over the rows `i ∈ [alo, ahi)`. -/
def rowsLoop (a b : List Char) (blo bhi : Nat) :
    List Nat → (Nat → Nat) → Nat × Nat × Nat → Nat × Nat × Nat
  | [], _, best => best
  | i :: is2, j2len, best =>
    let step := rowLoop i blo bhi j2len (positionsOf (a.getD i ' ') b)
      (fun _ => 0) best
    rowsLoop a b blo bhi is2 step.1 step.2

/-- The first post-loop extension of `find_longest_match`: grow the best
block leftwards while the adjacent characters match (the junk variants of
these loops never fire since there is no junk).  `fuel = besti` suffices:
each step decreases `besti` and stops at `alo`. -/
def extendLeftFuel (a b : List Char) (alo blo : Nat) :
    Nat → Nat → Nat → Nat → Nat × Nat × Nat
  | 0, besti, bestj, bestsize => (besti, bestj, bestsize)
  | fuel + 1, besti, bestj, bestsize =>
    if alo < besti ∧ blo < bestj ∧ a.getD (besti - 1) '*' = b.getD (bestj - 1) '/' then
      extendLeftFuel a b alo blo fuel (besti - 1) (bestj - 1) (bestsize + 1)
    else (besti, bestj, bestsize)

/-- The left extension loop at adequate fuel. -/
def extendLeft (a b : List Char) (alo blo besti bestj bestsize : Nat) :
    Nat × Nat × Nat :=
  extendLeftFuel a b alo blo besti besti bestj bestsize

/-- The second post-loop extension: grow the best block rightwards
(`fuel = ahi` suffices: `besti + bestsize` grows towards `ahi`). -/
def extendRightFuel (a b : List Char) (ahi bhi : Nat) (besti bestj : Nat) :
    Nat → Nat → Nat
  | 0, bestsize => bestsize
  | fuel + 1, bestsize =>
    if besti + bestsize < ahi ∧ bestj + bestsize < bhi ∧
        a.getD (besti + bestsize) '*' = b.getD (bestj + bestsize) '/' then
      extendRightFuel a b ahi bhi besti bestj fuel (bestsize + 1)
    else bestsize

/-- The right extension loop at adequate fuel. -/
def extendRight (a b : List Char) (ahi bhi : Nat) (besti bestj bestsize : Nat) :
    Nat :=
  extendRightFuel a b ahi bhi besti bestj ahi bestsize

/-- Model of `SequenceMatcher.find_longest_match(alo, ahi, blo, bhi)` (no junk). -/
def find_longest_match (a b : List Char) (alo ahi blo bhi : Nat) :
    Nat × Nat × Nat :=
  let best := rowsLoop a b blo bhi (List.range' alo (ahi - alo)) (fun _ => 0)
    (alo, blo, 0)
  let ext := extendLeft a b alo blo best.1 best.2.1 best.2.2
  (ext.1, ext.2.1, extendRight a b ahi bhi ext.1 ext.2.1 ext.2.2)

/-- Total size of all matching blocks (the `matches` of `ratio()`): the
recursive divide-and-conquer of `get_matching_blocks`, fuelled (each level
shrinks the ranges, so the fuel below never runs out). -/
def matchesFuel (a b : List Char) : Nat → Nat → Nat → Nat → Nat → Nat
  | 0, _, _, _, _ => 0
  | fuel + 1, alo, ahi, blo, bhi =>
    let m := find_longest_match a b alo ahi blo bhi
    if m.2.2 = 0 then 0
    else
      m.2.2 + matchesFuel a b fuel alo m.1 blo m.2.1 +
        matchesFuel a b fuel (m.1 + m.2.2) ahi (m.2.1 + m.2.2) bhi

/-- Total matched characters between `a` and `b` (argument order matters,
exactly as in `difflib`). -/
def matchesTotal (a b : List Char) : Nat :=
  matchesFuel a b (a.length + b.length + 1) 0 a.length 0 b.length

/-- Model of `SequenceMatcher(None, a, b).ratio() > num/den`, in exact arithmetic:
`ratio = 2*M/T` (and `1.0` when `T = 0`, per `_calculate_ratio`).  For the
thresholds `4/5` and `17/20` and the short strings involved, the
floating-point comparison of the source agrees with the rational one. -/
def seqRatioGt (a b : List Char) (num den : Nat) : Bool :=
  let M := matchesTotal a b
  let T := a.length + b.length
  if T = 0 then num < den else num * T < den * (2 * M)

/-- The `" - "` separator of normalized keys. -/
def sepChars : List Char := ' ' :: '-' :: ' ' :: []

/-- Drop everything up to and including the first occurrence of `sep`. -/
def dropThroughSep (sep : List Char) : List Char → Option (List Char)
  | [] => none
  | c :: rest =>
    if sep.isPrefixOf (c :: rest) then some ((c :: rest).drop sep.length)
    else dropThroughSep sep rest

/-- Model of `norm.split(" - ")[-1] if " - " in norm else norm`: the
substring after the last (left-to-right, non-overlapping) occurrence of
`" - "`, or the whole string when the separator is absent.  Each removal
consumes at least the separator, so `fuel = s.length` suffices. -/
def afterLastSepFuel : Nat → List Char → List Char
  | 0, s => s
  | fuel + 1, s =>
    match dropThroughSep sepChars s with
    | some rest => afterLastSepFuel fuel rest
    | none => s

/-- The last `" - "`-separated part of a normalized key. -/
def afterLastSep (s : List Char) : List Char := afterLastSepFuel s.length s

/-- Model of `tracks_are_similar(track1_artist, track1_title, track2_artist,
track2_title)`. -/
def tracks_are_similar (track1_artist track1_title track2_artist track2_title :
    String) : Bool :=
  let norm1 := normalize_track_name track1_artist track1_title
  let norm2 := normalize_track_name track2_artist track2_title
  if norm1 = "" || norm2 = "" then false
  else if norm1 = norm2 then true
  else if seqRatioGt norm1.data norm2.data 4 5 then true
  else if seqRatioGt (afterLastSep norm1.data) (afterLastSep norm2.data) 17 20 then
    true
  else false

/-! ## `format_timestamp` -/

/-- Model of `f"{n:02d}"` for the non-negative values used here. -/
def two_digits (n : Nat) : String :=
  if n < 10 then "0" ++ toString n else toString n

/-- Model of `format_timestamp(seconds)`. -/
def format_timestamp (seconds : Nat) : String :=
  let hours := seconds / 3600
  let minutes := (seconds % 3600) / 60
  let secs := seconds % 60
  if hours > 0 then
    two_digits hours ++ ":" ++ two_digits minutes ++ ":" ++ two_digits secs
  else
    two_digits minutes ++ ":" ++ two_digits secs

/-! ## The identification client (`identify_segment`)

The per-sample dict returned by `identify_segment` and consumed by the scan
loop.  A `found = true` dict produced by the source always carries all the
metadata keys (possibly with `None` values), so `Option` covers both absent
and `None`; the scan loop reads the metadata keys only when `found`.
-/

structure SegResult where
  found : Bool
  title : Option String := none
  artist : Option String := none
  album : Option String := none
  spotify_url : Option String := none
  apple_music_url : Option String := none
  deezer_url : Option String := none
  error : Option String := none
deriving DecidableEq, Repr

/-- The provider object `result["result"]["spotify"]` as far as the source reads it. -/
structure SpotifyObj where
  /-- Value of `spotify.get("external_urls", {})`: absent / null / object with the
  `spotify` field the source extracts. -/
  external_urls : Option (Option (Option String))
deriving DecidableEq, Repr

/-- The provider object `result["result"]["apple_music"]` as far as the source reads it. -/
structure AppleMusicObj where
  url : Option String
deriving DecidableEq, Repr

/-- The provider object `result["result"]["deezer"]` as far as the source reads it. -/
structure DeezerObj where
  id : Option Nat
deriving DecidableEq, Repr

/-- The provider's `result` object.  Each link object is
`none` = key absent, `some none` = key present but null,
`some (some o)` = present object. -/
structure ProviderTrack where
  title : Option String := none
  artist : Option String := none
  album : Option String := none
  spotify : Option (Option SpotifyObj) := none
  apple_music : Option (Option AppleMusicObj) := none
  deezer : Option (Option DeezerObj) := none
deriving DecidableEq, Repr

/-- The provider's top-level JSON response as far as the source reads it. -/
structure ProviderResponse where
  status : Option String := none
  error : Option String := none
  result : Option (Option ProviderTrack) := none
deriving DecidableEq, Repr

/-- The observable outcome of one provider interaction: either some
exception was raised before the field mapping (file I/O, transport,
timeout, non-JSON body, non-object JSON) and caught by the handler, or an
HTTP response with status code `status_code` whose body parsed as a JSON
object.  `requests.post` does not raise on a non-200 code, and the source
never reads `response.status_code`, so the code is carried here only to
state claims about it. -/
inductive ProviderOutcome where
  | exn (msg : String)
  | response (status_code : Nat) (resp : ProviderResponse)
deriving DecidableEq, Repr

/-- The message of the exception Python raises for `None.get(...)`. -/
def noneGetMsg : String := "'NoneType' object has no attribute 'get'"

/-- Model of `track.get("spotify", {}).get("external_urls", {}).get("spotify")
if track.get("spotify") else None`.  A falsy (`absent`/null) `spotify` gives
`None`; a present object with a *null* `external_urls` raises
(`None.get(...)`), which the enclosing handler converts to a miss. -/
def spotifyUrlOf (track : ProviderTrack) : Except String (Option String) :=
  match track.spotify with
  | some (some obj) =>
    match obj.external_urls with
    | none => .ok none
    | some none => .error noneGetMsg
    | some (some e) => .ok e
  | _ => .ok none

/-- Model of `track.get("apple_music", {}).get("url") if track.get("apple_music")
else None`. -/
def appleMusicUrlOf (track : ProviderTrack) : Except String (Option String) :=
  match track.apple_music with
  | some (some obj) => .ok obj.url
  | _ => .ok none

/-- Model of `f"https://www.deezer.com/track/{track.get('deezer', {}).get('id')}"
if track.get("deezer", {}).get("id") else None`.  An *absent* `deezer` key
falls back to `{}` and yields `None`, but a key present with value null
makes `.get("id")` raise on `None` — this path is not guarded by a
truthiness test like the other two links. -/
def deezerUrlOf (track : ProviderTrack) : Except String (Option String) :=
  match track.deezer with
  | none => .ok none
  | some none => .error noneGetMsg
  | some (some d) =>
    match d.id with
    | some n =>
      if n ≠ 0 then .ok (some ("https://www.deezer.com/track/" ++ toString n))
      else .ok none
    | none => .ok none

/-- The success-mapping of `identify_segment`: build the `found = true`
dict; any exception while extracting the link fields is caught by the
enclosing `except` and becomes `found = false` with the message captured. -/
def mapProviderTrack (track : ProviderTrack) : SegResult :=
  match (do
    let s ← spotifyUrlOf track
    let a ← appleMusicUrlOf track
    let d ← deezerUrlOf track
    pure (s, a, d) : Except String (Option String × Option String × Option String)) with
  | .ok (s, a, d) =>
    { found := true, title := track.title, artist := track.artist,
      album := track.album, spotify_url := s, apple_music_url := a,
      deezer_url := d }
  | .error e => { found := false, error := some e }

/-- Model of `identify_segment`: provider-reported error → miss with the
error captured; success with a truthy `result` → mapped metadata; anything
else (missing/odd status, absent or null `result`) → plain miss; any raised
exception → miss with the message captured.  The function is total: no
outcome propagates an exception to the caller. -/
def identify_segment (o : ProviderOutcome) : SegResult :=
  match o with
  | .exn msg => { found := false, error := some msg }
  | .response _ resp =>
    if resp.status = some "error" then { found := false, error := resp.error }
    else
      match resp.result with
      | some (some track) =>
        if resp.status = some "success" then mapProviderTrack track
        else { found := false }
      | _ => { found := false }

/-! ## The scan loop of `process_set` -/

/-- One emitted track (the dict `new_track` of `process_set`; the
`not_found` dict carries no album/link keys, modelled as `none`). -/
structure Track where
  timestamp : String
  timestamp_seconds : Nat
  title : Option String := none
  artist : Option String := none
  album : Option String := none
  spotify_url : Option String := none
  apple_music_url : Option String := none
  deezer_url : Option String := none
  status : String := "identified"
deriving DecidableEq, Repr

/-- The loop state of `process_set`'s scan:
`tracks`, `last_track`, `consecutive_not_found`. -/
structure ScanState where
  tracks : List Track
  last_track : Option Track
  consecutive_not_found : Nat
deriving DecidableEq, Repr

/-- The initial scan state (`tracks = []`, `last_track = None`,
`consecutive_not_found = 0`). -/
def initState : ScanState := ⟨[], none, 0⟩

/-- One iteration of the scan loop at `start_time` with per-sample result
`r`.  `result.get("artist", "")` may hand `None` to
`tracks_are_similar`/`normalize_track_name`, which treat `None` exactly like
`""` (both falsy), so the comparison arguments use `Option.getD ""`; the
dict stores the raw value, so the appended track keeps `r.title`/`r.artist`
as they are. -/
def scanStep (segment_duration : Nat) (st : ScanState) (start_time : Nat)
    (r : SegResult) : ScanState :=
  if r.found then
    let is_similar :=
      match st.last_track with
      | some lt =>
        lt.status = "identified" &&
          tracks_are_similar (lt.artist.getD "") (lt.title.getD "")
            (r.artist.getD "") (r.title.getD "")
      | none => false
    if !is_similar then
      let new_track : Track :=
        { timestamp := format_timestamp start_time,
          timestamp_seconds := start_time,
          title := r.title, artist := r.artist, album := r.album,
          spotify_url := r.spotify_url, apple_music_url := r.apple_music_url,
          deezer_url := r.deezer_url, status := "identified" }
      { tracks := st.tracks ++ [new_track], last_track := some new_track,
        consecutive_not_found := 0 }
    else st
  else
    let cnf := st.consecutive_not_found + 1
    let lastNotGap :=
      match st.last_track with
      | none => true
      | some lt => lt.status ≠ "not_found"
    if 2 ≤ cnf ∧ lastNotGap = true then
      let new_track : Track :=
        { timestamp := format_timestamp (start_time - segment_duration),
          timestamp_seconds := start_time - segment_duration,
          status := "not_found" }
      { tracks := st.tracks ++ [new_track], last_track := some new_track,
        consecutive_not_found := cnf }
    else
      { st with consecutive_not_found := cnf }

/-- Model of `range(0, duration_seconds, segment_duration)`: the sample start times
(`segment_duration = 0` would raise in Python and is modelled as an empty
scan; callers always pass a positive stride). -/
def scanStarts (duration_seconds segment_duration : Nat) : List Nat :=
  if segment_duration = 0 then []
  else (List.range ((duration_seconds + segment_duration - 1) / segment_duration)).map
    (· * segment_duration)

/-- The whole scan loop of `process_set`: fold `scanStep` over the sample
start times; `results start` is the `identify_segment` answer for the sample
at `start` (the audio slicing itself is outside the model). -/
def process_scan (duration_seconds segment_duration : Nat)
    (results : Nat → SegResult) : ScanState :=
  (scanStarts duration_seconds segment_duration).foldl
    (fun st start => scanStep segment_duration st start (results start)) initState

/-- The observable job outcome of the processing phase: the scan loop body
is total (`identify_segment` never raises), so a job whose scan runs ends
`completed` with the folded track list (acquisition/decode failures, which
end in `error`, happen before this phase and are outside the model). -/
structure JobOutcome where
  status : String
  tracks : List Track
deriving DecidableEq, Repr

/-- The processing phase of `process_set` from the start of the scan. -/
def process_set_scan (duration_seconds segment_duration : Nat)
    (results : Nat → SegResult) : JobOutcome :=
  { status := "completed",
    tracks := (process_scan duration_seconds segment_duration results).tracks }

/-! ## Shared helper lemmas -/

/-- A miss always increments the consecutive-miss counter, whatever else the
step does. -/
theorem scanStep_miss_cnf (sd : Nat) (st : ScanState) (s : Nat) (r : SegResult)
    (hr : r.found = false) :
    (scanStep sd st s r).consecutive_not_found = st.consecutive_not_found + 1 := by
  simp only [scanStep, hr, Bool.false_eq_true, if_false]
  split <;> rfl

/-- A miss appends at most one track and never touches the ones already
emitted. -/
theorem scanStep_miss_tracks (sd : Nat) (st : ScanState) (s : Nat) (r : SegResult)
    (hr : r.found = false) :
    (scanStep sd st s r).tracks = st.tracks ∨
      (scanStep sd st s r).tracks = st.tracks ++
        [{ timestamp := format_timestamp (s - sd), timestamp_seconds := s - sd,
           status := "not_found" }] := by
  simp only [scanStep, hr, Bool.false_eq_true, if_false]
  split
  · right; rfl
  · left; rfl

/-- A found sample judged similar to the last identified track leaves the
state untouched. -/
theorem scanStep_similar_skip (sd : Nat) (st : ScanState) (s : Nat) (r : SegResult)
    (lt : Track) (hr : r.found = true) (hlast : st.last_track = some lt)
    (hid : lt.status = "identified")
    (hsim : tracks_are_similar (lt.artist.getD "") (lt.title.getD "")
      (r.artist.getD "") (r.title.getD "") = true) :
    scanStep sd st s r = st := by
  simp [scanStep, hr, hlast, hid, hsim]

/-! ## Claims -/

/-- C1.  In a stride-30 scan whose state before the sample at 60 holds an
identified last track and no pending misses, and whose samples at 60, 90 and
120 all return not-found, exactly one `not_found` track is appended over the
three iterations; it is appended during the iteration processing the miss at
90 (the second consecutive miss) and is backdated to
`timestamp_seconds = 60 = max(0, 90 - segment_duration)` (the `90 - 30` of
the appended literal is Nat subtraction, i.e. the source's `max(0, ...)`). -/
theorem gap_backdated_once_at_second_miss (st : ScanState) (lt : Track)
    (hlast : st.last_track = some lt) (hid : lt.status = "identified")
    (hcnf : st.consecutive_not_found = 0)
    (r60 r90 r120 : SegResult) (h60 : r60.found = false)
    (h90 : r90.found = false) (h120 : r120.found = false) :
    (scanStep 30 st 60 r60).tracks = st.tracks ∧
    (scanStep 30 (scanStep 30 st 60 r60) 90 r90).tracks =
      st.tracks ++ [{ timestamp := format_timestamp 60, timestamp_seconds := 60, status := "not_found" }] ∧
    (scanStep 30 (scanStep 30 (scanStep 30 st 60 r60) 90 r90) 120 r120).tracks =
      st.tracks ++ [{ timestamp := format_timestamp 60, timestamp_seconds := 60, status := "not_found" }] := by
  have h1 : scanStep 30 st 60 r60 = { st with consecutive_not_found := 1 } := by
    simp [scanStep, h60, hcnf]
  have h2 : scanStep 30 { st with consecutive_not_found := 1 } 90 r90 =
      { tracks := st.tracks ++ [{ timestamp := format_timestamp 60, timestamp_seconds := 60, status := "not_found" }],
        last_track := some { timestamp := format_timestamp 60, timestamp_seconds := 60, status := "not_found" },
        consecutive_not_found := 2 } := by
    simp [scanStep, h90, hlast, hid]
  rw [h1, h2]
  refine ⟨rfl, rfl, ?_⟩
  simp [scanStep, h120]

/-- Witness for C1 at a concrete state and concrete miss results. -/
theorem gap_backdated_once_at_second_miss_witness :
    (scanStep 30 (scanStep 30 (scanStep 30
        ⟨[], some { timestamp := "00:00", timestamp_seconds := 0, title := some "t", artist := some "a", status := "identified" }, 0⟩
        60 { found := false }) 90 { found := false }) 120 { found := false }).tracks =
      [{ timestamp := format_timestamp 60, timestamp_seconds := 60, status := "not_found" }] := by
  have h := gap_backdated_once_at_second_miss
    ⟨[], some { timestamp := "00:00", timestamp_seconds := 0, title := some "t", artist := some "a", status := "identified" }, 0⟩
    { timestamp := "00:00", timestamp_seconds := 0, title := some "t", artist := some "a", status := "identified" }
    rfl rfl rfl { found := false } { found := false } { found := false }
    rfl rfl rfl
  exact h.2.2.trans (by simp)

/-- C10.  A found sample judged similar to the last identified track leaves
the consecutive-miss counter (indeed the whole state) unchanged — the
counter is reset only when a new identified track is appended — so two
misses separated by such a confirming sample still reach the count of 2 and
trigger a `not_found` marker even though the misses are not adjacent. -/
theorem confirming_sample_keeps_miss_counter (sd : Nat) (st : ScanState)
    (lt : Track) (hlast : st.last_track = some lt)
    (hid : lt.status = "identified") (hcnf : st.consecutive_not_found = 0)
    (s1 s2 s3 : Nat) (r1 r2 r3 : SegResult)
    (h1 : r1.found = false) (h2 : r2.found = true)
    (hsim : tracks_are_similar (lt.artist.getD "") (lt.title.getD "")
      (r2.artist.getD "") (r2.title.getD "") = true)
    (h3 : r3.found = false) :
    scanStep sd st s1 r1 = { st with consecutive_not_found := 1 } ∧
    scanStep sd { st with consecutive_not_found := 1 } s2 r2 =
      { st with consecutive_not_found := 1 } ∧
    (scanStep sd (scanStep sd (scanStep sd st s1 r1) s2 r2) s3 r3).tracks =
      st.tracks ++ [{ timestamp := format_timestamp (s3 - sd), timestamp_seconds := s3 - sd, status := "not_found" }] ∧
    (scanStep sd (scanStep sd (scanStep sd st s1 r1) s2 r2) s3 r3).consecutive_not_found
      = 2 := by
  have hs1 : scanStep sd st s1 r1 = { st with consecutive_not_found := 1 } := by
    simp [scanStep, h1, hcnf]
  have hs2 : scanStep sd { st with consecutive_not_found := 1 } s2 r2 =
      { st with consecutive_not_found := 1 } :=
    scanStep_similar_skip sd _ s2 r2 lt h2 hlast hid hsim
  rw [hs1, hs2]
  refine ⟨rfl, rfl, ?_, ?_⟩ <;> simp [scanStep, h3, hlast, hid]

/-- Witness for C10 at a concrete state, with the confirming sample carrying
the same `(artist, title)` pair as the last identified track. -/
theorem confirming_sample_keeps_miss_counter_witness :
    (scanStep 30 (scanStep 30 (scanStep 30
        ⟨[], some { timestamp := "00:00", timestamp_seconds := 0, title := some "t", artist := some "a", status := "identified" }, 0⟩
        30 { found := false })
        60 { found := true, title := some "t", artist := some "a" })
        90 { found := false }).tracks =
      [{ timestamp := format_timestamp 60, timestamp_seconds := 60, status := "not_found" }] := by
  have h := confirming_sample_keeps_miss_counter 30
    ⟨[], some { timestamp := "00:00", timestamp_seconds := 0, title := some "t", artist := some "a", status := "identified" }, 0⟩
    { timestamp := "00:00", timestamp_seconds := 0, title := some "t", artist := some "a", status := "identified" }
    rfl rfl rfl 30 60 90 { found := false }
    { found := true, title := some "t", artist := some "a" } { found := false }
    rfl rfl (by decide) rfl
  exact h.2.2.1.trans (by simp)

/-- C6 (amended).  Any exception during the provider interaction (transport
failure, timeout, non-JSON body) and any provider-reported error status
yield `found = false` with the error captured, and `identify_segment` is a
total function, never raising to its caller; any response whose JSON status
is not `"success"` is likewise a miss.  The HTTP status code is never
consulted (the result is the same for any two codes).  The scan loop treats
any `found = false` result exactly like a genuine non-match: the
consecutive-miss counter is incremented, and the iteration at most appends
one gap marker and never aborts the job. -/
theorem identify_failures_treated_as_misses (msg : String) (code code2 : Nat)
    (resp : ProviderResponse) (sd : Nat) (st : ScanState) (s : Nat)
    (r : SegResult) (hr : r.found = false) :
    (identify_segment (.exn msg)).found = false ∧
    (identify_segment (.exn msg)).error = some msg ∧
    (resp.status = some "error" →
      (identify_segment (.response code resp)).found = false ∧
      (identify_segment (.response code resp)).error = resp.error) ∧
    (resp.status ≠ some "success" →
      (identify_segment (.response code resp)).found = false) ∧
    identify_segment (.response code resp) = identify_segment (.response code2 resp) ∧
    (scanStep sd st s r).consecutive_not_found = st.consecutive_not_found + 1 ∧
    ((scanStep sd st s r).tracks = st.tracks ∨
      (scanStep sd st s r).tracks = st.tracks ++
        [{ timestamp := format_timestamp (s - sd), timestamp_seconds := s - sd, status := "not_found" }]) := by
  refine ⟨rfl, rfl, ?_, ?_, rfl, scanStep_miss_cnf sd st s r hr,
    scanStep_miss_tracks sd st s r hr⟩
  · intro h
    simp [identify_segment, h]
  · intro h
    by_cases he : resp.status = some "error"
    · simp [identify_segment, he]
    · simp only [identify_segment, if_neg he]
      cases hres : resp.result with
      | none => rfl
      | some o =>
        cases o with
        | none => rfl
        | some track => simp [h]

/-- Witness for C6 at concrete failure outcomes. -/
theorem identify_failures_treated_as_misses_witness :
    (identify_segment (.exn "timeout")).found = false ∧
    (scanStep 30 initState 0 { found := false }).consecutive_not_found =
      initState.consecutive_not_found + 1 :=
  ⟨(identify_failures_treated_as_misses "timeout" 200 500
      { status := some "error", error := some "limit" } 30 initState 0
      { found := false } rfl).1,
   (identify_failures_treated_as_misses "timeout" 200 500
      { status := some "error", error := some "limit" } 30 initState 0
      { found := false } rfl).2.2.2.2.2.1⟩

/-- Counterexample for C6 as stated: the source never reads
`response.status_code`, so a non-200 (here 500) response whose body is a
well-formed success JSON is mapped to `found = true`, not to a miss. -/
theorem non_200_success_body_is_not_a_miss :
    (identify_segment (.response 500 { status := some "success", result := some (some { title := some "t", artist := some "a" }) })).found = true := by
  rfl

/-- C5 (amended).  For a success response with a non-null result object,
absent nested link objects and a *null* `spotify` or `apple_music` are
handled defensively: the call returns `found = true` with the mapped
title/artist/album and null link fields.  A *null* `deezer` object, however,
is not guarded by a truthiness test: `track.get("deezer", {}).get("id")`
raises on `None`, and the call returns `found = false` with the error
captured. -/
theorem identify_success_links_defensive (code : Nat) (resp : ProviderResponse)
    (track : ProviderTrack) (hst : resp.status = some "success")
    (hres : resp.result = some (some track))
    (hsp : track.spotify = none ∨ track.spotify = some none)
    (ham : track.apple_music = none ∨ track.apple_music = some none) :
    (track.deezer = none → identify_segment (.response code resp) =
      { found := true, title := track.title, artist := track.artist,
        album := track.album, spotify_url := none, apple_music_url := none,
        deezer_url := none }) ∧
    (track.deezer = some none → identify_segment (.response code resp) =
      { found := false, error := some noneGetMsg }) := by
  constructor <;> intro hd <;>
    rcases hsp with h | h <;> rcases ham with h2 | h2 <;>
      (simp [identify_segment, mapProviderTrack, spotifyUrlOf, appleMusicUrlOf,
        deezerUrlOf, hst, hres, h, h2, hd, Except.bind]
       try rfl)

/-- Witness for C5 at a concrete response: null `spotify`, absent
`apple_music`, absent `deezer`. -/
theorem identify_success_links_defensive_witness :
    identify_segment (.response 200 { status := some "success", result := some (some { title := some "t", artist := some "a", spotify := some none }) }) =
      { found := true, title := some "t", artist := some "a", album := none,
        spotify_url := none, apple_music_url := none, deezer_url := none } :=
  (identify_success_links_defensive 200
    { status := some "success", result := some (some { title := some "t", artist := some "a", spotify := some none }) }
    { title := some "t", artist := some "a", spotify := some none }
    rfl rfl (Or.inr rfl) (Or.inl rfl)).1 rfl

/-- Counterexample for C5 as stated: a response whose only anomaly is a
*null* `deezer` object (key present, value null) makes `identify_segment`
return `found = false` — the nested access is not failure-proof for this
combination of null link objects. -/
theorem null_deezer_makes_identify_fail :
    identify_segment (.response 200 { status := some "success", result := some (some { title := some "t", artist := some "a", album := some "b", deezer := some none }) }) =
      { found := false, error := some noneGetMsg } := by
  rfl

/-- State reached by an all-miss scan after `n` iterations: no track for
fewer than two samples, then exactly one `not_found` marker at timestamp 0
(appended at the second sample, start `sd`, backdated by `sd`), with the
counter still counting. -/
theorem all_miss_fold (sd : Nat) (results : Nat → SegResult)
    (hmiss : ∀ s, (results s).found = false) :
    ∀ n : Nat,
      ((List.range n).map (· * sd)).foldl
        (fun st start => scanStep sd st start (results start)) initState =
      if n = 0 then initState
      else if n = 1 then { tracks := [], last_track := none, consecutive_not_found := 1 }
      else { tracks := [{ timestamp := format_timestamp 0, timestamp_seconds := 0, status := "not_found" }],
             last_track := some { timestamp := format_timestamp 0, timestamp_seconds := 0, status := "not_found" },
             consecutive_not_found := n } := by
  intro n
  induction n with
  | zero => simp
  | succ n ih =>
    rw [List.range_succ, List.map_append, List.foldl_append, ih]
    rcases n with _ | n
    · simp [scanStep, hmiss, initState]
    · rcases n with _ | m
      · simp [scanStep, hmiss, initState]
      · simp [scanStep, hmiss]

/-- C4 (amended).  A scan in which no sample is identified still ends with
status `completed` (never an error: every per-sample failure is already
folded into a miss), and its `tracks` sequence contains no `identified`
entry — it is empty when the scan has fewer than two samples, and otherwise
holds exactly one `not_found` marker at timestamp 0, not an empty
sequence. -/
theorem unrecognized_scan_completes (d sd : Nat) (hsd : 1 ≤ sd)
    (results : Nat → SegResult) (hmiss : ∀ s, (results s).found = false) :
    (process_set_scan d sd results).status = "completed" ∧
    ((process_set_scan d sd results).tracks = [] ∨
      (process_set_scan d sd results).tracks =
        [{ timestamp := format_timestamp 0, timestamp_seconds := 0, status := "not_found" }]) ∧
    ∀ tr ∈ (process_set_scan d sd results).tracks, tr.status ≠ "identified" := by
  have hsd0 : sd ≠ 0 := by omega
  have h := all_miss_fold sd results hmiss ((d + sd - 1) / sd)
  have htr : (process_set_scan d sd results).tracks = [] ∨
      (process_set_scan d sd results).tracks =
        [{ timestamp := format_timestamp 0, timestamp_seconds := 0, status := "not_found" }] := by
    unfold process_set_scan process_scan scanStarts
    rw [if_neg hsd0]
    rw [h]
    split
    · left; rfl
    · split
      · left; rfl
      · right; rfl
  refine ⟨rfl, htr, ?_⟩
  intro tr htrm
  rcases htr with he | he <;> rw [he] at htrm
  · simp at htrm
  · simp at htrm
    rw [htrm]
    decide

/-- Witness for C4 at a concrete two-sample all-miss scan. -/
theorem unrecognized_scan_completes_witness :
    (process_set_scan 60 30 (fun _ => { found := false })).status = "completed" ∧
    ((process_set_scan 60 30 (fun _ => { found := false })).tracks = [] ∨
      (process_set_scan 60 30 (fun _ => { found := false })).tracks =
        [{ timestamp := format_timestamp 0, timestamp_seconds := 0, status := "not_found" }]) ∧
    ∀ tr ∈ (process_set_scan 60 30 (fun _ => { found := false })).tracks,
      tr.status ≠ "identified" :=
  unrecognized_scan_completes 60 30 (by omega) (fun _ => { found := false })
    (fun _ => rfl)

/-- Counterexample for C4 as stated: a fully unrecognized two-sample scan
(duration 60, stride 30) completes with one `not_found` track at timestamp
0 — the `tracks` sequence is *not* empty. -/
theorem all_miss_scan_is_not_empty :
    (process_set_scan 60 30 (fun _ => { found := false })).tracks =
      [{ timestamp := format_timestamp 0, timestamp_seconds := 0, status := "not_found" }] := by
  decide

/-- Similarity is reflexive whenever the normalized key is non-empty (the
exact-equality check fires before any fuzzy ratio). -/
theorem tracks_are_similar_refl (a t : String)
    (h : normalize_track_name a t ≠ "") : tracks_are_similar a t a t = true := by
  simp [tracks_are_similar, h]

/-- Once an identified track carrying the constant sample's `(artist,
title)` is the last track, every further sample with that same pair is
judged similar and the scan state never changes again. -/
theorem const_similar_fold (sd : Nat) (a t : String)
    (hn : normalize_track_name a t ≠ "") (r : SegResult) (hr : r.found = true)
    (hra : r.artist = some a) (hrt : r.title = some t) :
    ∀ (starts : List Nat) (st : ScanState) (x : Track),
      st.last_track = some x → x.status = "identified" →
      x.artist = some a → x.title = some t →
      starts.foldl (fun acc start => scanStep sd acc start r) st = st := by
  intro starts
  induction starts with
  | nil => intro st x _ _ _ _; rfl
  | cons s rest ih =>
    intro st x hlast hid hxa hxt
    have hsim : tracks_are_similar (x.artist.getD "") (x.title.getD "")
        (r.artist.getD "") (r.title.getD "") = true := by
      rw [hxa, hxt, hra, hrt]
      exact tracks_are_similar_refl a t hn
    have hstep : scanStep sd st s r = st :=
      scanStep_similar_skip sd st s r x hr hlast hid hsim
    rw [List.foldl_cons, hstep]
    exact ih st x hlast hid hxa hxt

/-- C3 (amended).  For every `(artist, title)` pair whose normalized key is
non-empty (equivalently: both strings non-empty, since only the emptiness
guard of `normalize_track_name` yields `""`), a scan of any length `≥ 1` in
which every sample returns found with that identical pair produces exactly
one `identified` entry. -/
theorem dedup_single_identified (d sd : Nat) (hd : 1 ≤ d) (hsd : 1 ≤ sd)
    (a t : String) (hn : normalize_track_name a t ≠ "")
    (r : SegResult) (hr : r.found = true) (hra : r.artist = some a)
    (hrt : r.title = some t) :
    ((process_scan d sd (fun _ => r)).tracks.countP
      (fun tr => tr.status = "identified")) = 1 := by
  obtain ⟨K, hK⟩ : ∃ K, (d + sd - 1) / sd = K + 1 := by
    have h1 : 1 ≤ (d + sd - 1) / sd := by
      rw [Nat.one_le_div_iff (by omega)]
      omega
    exact ⟨(d + sd - 1) / sd - 1, by omega⟩
  unfold process_scan scanStarts
  rw [if_neg (by omega : ¬ sd = 0), hK, List.range_succ_eq_map]
  simp only [List.map_cons, List.foldl_cons, Nat.zero_mul]
  have h1 : scanStep sd initState 0 r =
      ⟨[{ timestamp := format_timestamp 0, timestamp_seconds := 0, title := r.title, artist := r.artist, album := r.album, spotify_url := r.spotify_url, apple_music_url := r.apple_music_url, deezer_url := r.deezer_url, status := "identified" }],
        some { timestamp := format_timestamp 0, timestamp_seconds := 0, title := r.title, artist := r.artist, album := r.album, spotify_url := r.spotify_url, apple_music_url := r.apple_music_url, deezer_url := r.deezer_url, status := "identified" }, 0⟩ := by
    simp [scanStep, initState, hr]
  rw [h1, const_similar_fold sd a t hn r hr hra hrt _ _ _ rfl rfl hra hrt]
  simp

/-- Witness for C3 at a concrete pair and two-sample scan. -/
theorem dedup_single_identified_witness :
    ((process_scan 60 30 (fun _ => { found := true, artist := some "daft", title := some "one" })).tracks.countP
      (fun tr => tr.status = "identified")) = 1 :=
  dedup_single_identified 60 30 (by omega) (by omega) "daft" "one" (by decide)
    { found := true, artist := some "daft", title := some "one" } rfl rfl rfl

/-- Counterexample for C3 as stated: with the pair `("", "song")` (an empty
artist), `normalize_track_name` returns `""`, `tracks_are_similar` is never
true, and a two-sample scan yields two `identified` entries, not one. -/
theorem empty_artist_defeats_dedup :
    ((process_scan 60 30 (fun _ => { found := true, artist := some "", title := some "song" })).tracks.countP
      (fun tr => tr.status = "identified")) = 2 := by
  decide

/-! ## The scan invariant (claims C2 and C7) -/

/-- The scan-loop invariant holding before the iteration whose start time is
`bound` (consecutive start times differ by exactly `sd`):
timestamps strictly increase, no two adjacent gap markers, `last_track`
mirrors the last appended track, every emitted timestamp is at most
`bound - sd`, a pending miss pushes the last identified timestamp back to at
most `bound - 2*sd` (it was appended before the miss), every status is one of
the two constants, and gap markers carry no metadata. -/
structure ScanInv (sd bound : Nat) (st : ScanState) : Prop where
  sorted : List.Chain' (fun t1 t2 => t1.timestamp_seconds < t2.timestamp_seconds) st.tracks
  gaps : List.Chain' (fun t1 t2 =>
    ¬(t1.status = "not_found" ∧ t2.status = "not_found")) st.tracks
  last_eq : st.last_track = st.tracks.getLast?
  ts_bound : ∀ tr ∈ st.tracks, tr.timestamp_seconds + sd ≤ bound
  cnf_bound : 1 ≤ st.consecutive_not_found → ∀ lt, st.last_track = some lt →
    lt.status = "identified" → lt.timestamp_seconds + 2 * sd ≤ bound
  statuses : ∀ tr ∈ st.tracks, tr.status = "identified" ∨ tr.status = "not_found"
  gapless_fields : ∀ tr ∈ st.tracks, tr.status = "not_found" →
    tr.title = none ∧ tr.artist = none ∧ tr.album = none

/-- The invariant is monotone in the bound. -/
theorem ScanInv.mono {sd bound bound' : Nat} {st : ScanState}
    (h : bound ≤ bound') (inv : ScanInv sd bound st) : ScanInv sd bound' st := by
  refine ⟨inv.sorted, inv.gaps, inv.last_eq, ?_, ?_, inv.statuses, inv.gapless_fields⟩
  · intro tr htr
    exact le_trans (inv.ts_bound tr htr) h
  · intro h1 lt hlt hid
    exact le_trans (inv.cnf_bound h1 lt hlt hid) h

/-- Appending one element to a `Chain'` list. -/
theorem chain'_append_one {α : Type} {R : α → α → Prop} {l : List α} {x : α}
    (hl : List.Chain' R l) (hlast : ∀ y, l.getLast? = some y → R y x) :
    List.Chain' R (l ++ [x]) := by
  rw [List.chain'_append]
  refine ⟨hl, List.chain'_singleton x, ?_⟩
  intro y hy z hz
  simp only [List.head?_cons, Option.mem_def, Option.some.injEq] at hz
  subst hz
  exact hlast y hy

/-- One scan iteration at start time `bound` preserves the invariant,
re-established for the next start time `bound + sd`. -/
theorem scanInv_step (sd : Nat) (hsd : 1 ≤ sd) (bound : Nat) (st : ScanState)
    (inv : ScanInv sd bound st) (r : SegResult) :
    ScanInv sd (bound + sd) (scanStep sd st bound r) := by
  by_cases hf : r.found = true
  · simp only [scanStep, hf, if_true]
    split
    · -- a new identified track at time `bound` is appended
      refine { sorted := ?_, gaps := ?_, last_eq := ?_, ts_bound := ?_,
               cnf_bound := ?_, statuses := ?_, gapless_fields := ?_ }
      · refine chain'_append_one inv.sorted ?_
        intro y hy
        have hmem : y ∈ st.tracks := List.mem_of_getLast?_eq_some hy
        have := inv.ts_bound y hmem
        simp only
        omega
      · refine chain'_append_one inv.gaps ?_
        intro y _
        simp
      · simp [List.getLast?_concat]
      · intro tr htr
        rcases List.mem_append.mp htr with hm | hm
        · have := inv.ts_bound tr hm
          omega
        · simp only [List.mem_singleton] at hm
          subst hm
          simp
      · intro h1
        simp at h1
      · intro tr htr
        rcases List.mem_append.mp htr with hm | hm
        · exact inv.statuses tr hm
        · simp only [List.mem_singleton] at hm
          subst hm
          left
          rfl
      · intro tr htr hnf
        rcases List.mem_append.mp htr with hm | hm
        · exact inv.gapless_fields tr hm hnf
        · simp only [List.mem_singleton] at hm
          subst hm
          simp at hnf
    · -- the sample confirmed the open track: state unchanged
      exact inv.mono (Nat.le_add_right bound sd)
  · have hf' : r.found = false := by simpa using hf
    simp only [scanStep, hf', Bool.false_eq_true, if_false]
    split
    · -- a gap marker at time `bound - sd` is appended
      rename_i hguard
      obtain ⟨hcnt, hng⟩ := hguard
      have hcnf1 : 1 ≤ st.consecutive_not_found := by omega
      have hlastlt : ∀ y, st.tracks.getLast? = some y → y.timestamp_seconds < bound - sd := by
        intro y hy
        have hmem : y ∈ st.tracks := List.mem_of_getLast?_eq_some hy
        have hlast : st.last_track = some y := inv.last_eq.trans hy
        have hyn : y.status ≠ "not_found" := by
          rw [hlast] at hng
          simpa using hng
        have hyid : y.status = "identified" := by
          rcases inv.statuses y hmem with h | h
          · exact h
          · exact absurd h hyn
        have := inv.cnf_bound hcnf1 y hlast hyid
        omega
      refine { sorted := ?_, gaps := ?_, last_eq := ?_, ts_bound := ?_,
               cnf_bound := ?_, statuses := ?_, gapless_fields := ?_ }
      · refine chain'_append_one inv.sorted ?_
        intro y hy
        exact hlastlt y hy
      · refine chain'_append_one inv.gaps ?_
        intro y hy
        have hlast : st.last_track = some y := inv.last_eq.trans hy
        have hyn : y.status ≠ "not_found" := by
          rw [hlast] at hng
          simpa using hng
        intro hc
        exact hyn hc.1
      · simp [List.getLast?_concat]
      · intro tr htr
        rcases List.mem_append.mp htr with hm | hm
        · have := inv.ts_bound tr hm
          omega
        · simp only [List.mem_singleton] at hm
          subst hm
          simp only
          omega
      · intro _ lt hlt hid
        simp only [Option.some.injEq] at hlt
        rw [← hlt] at hid
        simp at hid
      · intro tr htr
        rcases List.mem_append.mp htr with hm | hm
        · exact inv.statuses tr hm
        · simp only [List.mem_singleton] at hm
          subst hm
          right
          rfl
      · intro tr htr hnf
        rcases List.mem_append.mp htr with hm | hm
        · exact inv.gapless_fields tr hm hnf
        · simp only [List.mem_singleton] at hm
          subst hm
          exact ⟨rfl, rfl, rfl⟩
    · -- counter incremented, nothing appended
      refine { sorted := inv.sorted, gaps := inv.gaps, last_eq := inv.last_eq,
               ts_bound := ?_, cnf_bound := ?_, statuses := inv.statuses,
               gapless_fields := inv.gapless_fields }
      · intro tr htr
        have := inv.ts_bound tr htr
        omega
      · intro _ lt hlt hid
        have hmem : lt ∈ st.tracks :=
          List.mem_of_getLast?_eq_some (inv.last_eq.symm.trans hlt)
        have := inv.ts_bound lt hmem
        omega

/-- The invariant holds after any number of scan iterations. -/
theorem scanInv_fold (sd : Nat) (hsd : 1 ≤ sd) (results : Nat → SegResult) :
    ∀ n : Nat, ScanInv sd (n * sd)
      (((List.range n).map (· * sd)).foldl
        (fun st start => scanStep sd st start (results start)) initState) := by
  intro n
  induction n with
  | zero =>
    refine { sorted := List.chain'_nil, gaps := List.chain'_nil, last_eq := rfl,
             ts_bound := ?_, cnf_bound := ?_, statuses := ?_, gapless_fields := ?_ }
    · intro tr htr
      simp [initState] at htr
    · intro h1
      simp [initState] at h1
    · intro tr htr
      simp [initState] at htr
    · intro tr htr
      simp [initState] at htr
  | succ n ih =>
    rw [List.range_succ, List.map_append, List.foldl_append]
    have h := scanInv_step sd hsd (n * sd) _ ih (results (n * sd))
    have he : n * sd + sd = (n + 1) * sd := by ring
    rw [he] at h
    simpa using h

/-- The invariant transported to `process_scan`. -/
theorem scanInv_process (d sd : Nat) (hsd : 1 ≤ sd) (results : Nat → SegResult) :
    ScanInv sd (((d + sd - 1) / sd) * sd) (process_scan d sd results) := by
  unfold process_scan scanStarts
  rw [if_neg (by omega : ¬ sd = 0)]
  exact scanInv_fold sd hsd results _

/-- C2.  For every completed scan, whatever the per-sample results, the
produced track sequence is strictly increasing in `timestamp_seconds`, and
no two consecutive tracks both carry status `not_found`. -/
theorem scan_monotone_and_gap_separated (d sd : Nat) (hsd : 1 ≤ sd)
    (results : Nat → SegResult) :
    ∀ (i : Nat) (h : i < (process_scan d sd results).tracks.length - 1),
      ((process_scan d sd results).tracks.get ⟨i, by omega⟩).timestamp_seconds <
        ((process_scan d sd results).tracks.get ⟨i + 1, by omega⟩).timestamp_seconds ∧
      ¬(((process_scan d sd results).tracks.get ⟨i, by omega⟩).status = "not_found" ∧
        ((process_scan d sd results).tracks.get ⟨i + 1, by omega⟩).status = "not_found") := by
  have inv := scanInv_process d sd hsd results
  have h1 := List.chain'_iff_get.mp inv.sorted
  have h2 := List.chain'_iff_get.mp inv.gaps
  intro i h
  exact ⟨h1 i h, h2 i h⟩

/-- Witness for C2 at a concrete stride and result sequence. -/
theorem scan_monotone_and_gap_separated_witness :
    1 ≤ 30 ∧
    ∀ (i : Nat) (h : i < (process_scan 90 30 (fun _ => { found := false })).tracks.length - 1),
      ((process_scan 90 30 (fun _ => { found := false })).tracks.get ⟨i, by omega⟩).timestamp_seconds <
        ((process_scan 90 30 (fun _ => { found := false })).tracks.get ⟨i + 1, by omega⟩).timestamp_seconds ∧
      ¬(((process_scan 90 30 (fun _ => { found := false })).tracks.get ⟨i, by omega⟩).status = "not_found" ∧
        ((process_scan 90 30 (fun _ => { found := false })).tracks.get ⟨i + 1, by omega⟩).status = "not_found") :=
  ⟨by omega, scan_monotone_and_gap_separated 90 30 (by omega) (fun _ => { found := false })⟩

/-- C7 (amended).  Every produced track has status `identified` or
`not_found`, and a `not_found` track carries no title, artist or album; an
`identified` track carries exactly the provider-returned optional fields,
which may individually be null (see the counterexample for the failed
direction of the original iff). -/
theorem gap_tracks_carry_no_metadata (d sd : Nat) (hsd : 1 ≤ sd)
    (results : Nat → SegResult) :
    ∀ tr ∈ (process_scan d sd results).tracks,
      (tr.status = "identified" ∨ tr.status = "not_found") ∧
      (tr.status = "not_found" →
        tr.title = none ∧ tr.artist = none ∧ tr.album = none) := by
  have inv := scanInv_process d sd hsd results
  intro tr htr
  exact ⟨inv.statuses tr htr, inv.gapless_fields tr htr⟩

/-- Witness for C7 at a concrete scan. -/
theorem gap_tracks_carry_no_metadata_witness :
    1 ≤ 30 ∧
    ∀ tr ∈ (process_scan 90 30 (fun _ => { found := false })).tracks,
      (tr.status = "identified" ∨ tr.status = "not_found") ∧
      (tr.status = "not_found" →
        tr.title = none ∧ tr.artist = none ∧ tr.album = none) :=
  ⟨by omega, gap_tracks_carry_no_metadata 90 30 (by omega) (fun _ => { found := false })⟩

/-- C8 (amended).  Swapping the two input pairs yields the same boolean
whenever the two normalized keys are equal or either is empty (the
emptiness and exact-equality steps of the comparator are symmetric); the
fuzzy-ratio steps are evaluated on `SequenceMatcher`, whose ratio depends on
the argument order, so in general the comparator is *not* symmetric (see the
counterexample). -/
theorem similar_symm_of_norm_eq_or_empty (a1 t1 a2 t2 : String)
    (h : normalize_track_name a1 t1 = normalize_track_name a2 t2 ∨
      normalize_track_name a1 t1 = "" ∨ normalize_track_name a2 t2 = "") :
    tracks_are_similar a1 t1 a2 t2 = tracks_are_similar a2 t2 a1 t1 := by
  rcases h with h | h | h
  · simp only [tracks_are_similar, h]
  · simp [tracks_are_similar, h]
  · simp [tracks_are_similar, h]

/-- Witness for C8 at two raw pairs with equal normalized keys. -/
theorem similar_symm_of_norm_eq_or_empty_witness :
    tracks_are_similar "daft" "one" "daft" "one!" =
      tracks_are_similar "daft" "one!" "daft" "one" :=
  similar_symm_of_norm_eq_or_empty "daft" "one" "daft" "one!" (Or.inl (by decide))

/-- Counterexample for C8 as stated: `SequenceMatcher.ratio` is
order-sensitive (its longest-match tie-breaking prefers the earliest block
of the *first* argument), and near the 0.80 threshold this makes
`tracks_are_similar` asymmetric: with a common 15-character prefix the
forward ratio is 36/44 > 0.8 while the swapped ratio is 34/44 ≤ 0.8, and
the title-only fallback (ratio 4/14) does not rescue it. -/
theorem tracks_are_similar_not_symmetric :
    tracks_are_similar "dada dada dd" "pqxmyrs" "dada dada dd" "rsupqvm" = true ∧
    tracks_are_similar "dada dada dd" "rsupqvm" "dada dada dd" "pqxmyrs" = false := by
  constructor <;> decide

/-- Counterexample for C7 as stated: a single-sample scan whose provider
result has a null album produces an `identified` track with `album = none`,
so "title, artist and album present iff identified" fails in the
album direction. -/
theorem identified_track_may_lack_album :
    ((process_scan 30 30 (fun _ => { found := true, title := some "t", artist := some "a" })).tracks.map
      (fun tr => (tr.status, tr.album))) = [("identified", none)] := by
  decide

/-! ## Fixed points of the normalization pipeline (claim C9) -/

/-- No lower-case letter of the case table reappears as an upper-case key. -/
theorem pairs_snd_never_fst :
    ∀ p ∈ upperLowerPairs, upperLowerPairs.find? (fun q => q.1 = p.2) = none := by
  decide

/-- Lower-casing is idempotent. -/
theorem lowerChar_idem (c : Char) : lowerChar (lowerChar c) = lowerChar c := by
  cases hfind : upperLowerPairs.find? (fun p => p.1 = c) with
  | none =>
    have h1 : lowerChar c = c := by simp [lowerChar, hfind]
    rw [h1]
    exact h1
  | some p =>
    have hmem : p ∈ upperLowerPairs := List.mem_of_find?_eq_some hfind
    have h1 : lowerChar c = p.2 := by simp [lowerChar, hfind]
    rw [h1]
    simp [lowerChar, pairs_snd_never_fst p hmem]

/-- Mapping a function that fixes every member is the identity. -/
theorem map_eq_self_of_fixed {f : Char → Char} :
    ∀ (l : List Char), (∀ c ∈ l, f c = c) → l.map f = l := by
  intro l
  induction l with
  | nil => intro _; rfl
  | cons c rest ih =>
    intro h
    simp only [List.map_cons]
    rw [h c (by simp), ih (fun d hd => h d (by simp [hd]))]

/-- Stripping only removes characters. -/
theorem mem_stripChars {c : Char} {l : List Char} (h : c ∈ stripChars l) :
    c ∈ l := by
  unfold stripChars at h
  rw [List.mem_reverse] at h
  have h2 := List.dropWhile_subset _ h
  rw [List.mem_reverse] at h2
  exact List.dropWhile_subset _ h2

/-- Group removal only removes characters (relative to input plus pending
buffer). -/
theorem mem_stripEnclosedAux {op cl : Char} :
    ∀ (l : List Char) (buf : Option (List Char)) (c : Char),
      c ∈ stripEnclosedAux op cl buf l →
      c ∈ l ∨ ∃ b, buf = some b ∧ c ∈ b := by
  intro l
  induction l with
  | nil =>
    intro buf c h
    cases buf with
    | none => simp [stripEnclosedAux] at h
    | some b =>
      simp only [stripEnclosedAux] at h
      rw [List.mem_reverse] at h
      exact Or.inr ⟨b, rfl, h⟩
  | cons x rest ih =>
    intro buf c h
    cases buf with
    | none =>
      simp only [stripEnclosedAux] at h
      split at h
      · rcases ih _ c h with h2 | ⟨b, hb, h3⟩
        · exact Or.inl (List.mem_cons_of_mem _ h2)
        · cases hb
          simp only [List.mem_singleton] at h3
          subst h3
          exact Or.inl (List.mem_cons_self _ _)
      · rcases List.mem_cons.mp h with h2 | h2
        · subst h2
          exact Or.inl (List.mem_cons_self _ _)
        · rcases ih none c h2 with h3 | ⟨b, hb, _⟩
          · exact Or.inl (List.mem_cons_of_mem _ h3)
          · cases hb
    | some b =>
      simp only [stripEnclosedAux] at h
      split at h
      · rcases ih none c h with h2 | ⟨b2, hb2, _⟩
        · exact Or.inl (List.mem_cons_of_mem _ h2)
        · cases hb2
      · rcases ih (some (x :: b)) c h with h2 | ⟨b2, hb2, h3⟩
        · exact Or.inl (List.mem_cons_of_mem _ h2)
        · cases hb2
          rcases List.mem_cons.mp h3 with h4 | h4
          · subst h4
            exact Or.inl (List.mem_cons_self _ _)
          · exact Or.inr ⟨b, rfl, h4⟩

/-- Group removal only removes characters. -/
theorem mem_stripEnclosed {op cl : Char} {l : List Char} {c : Char}
    (h : c ∈ stripEnclosed op cl l) : c ∈ l := by
  rcases mem_stripEnclosedAux l none c h with h2 | ⟨b, hb, _⟩
  · exact h2
  · cases hb

/-- One noise-word pass only removes characters. -/
theorem removeWordFuel_sublist (wh : Char) (wt : List Char) (wlast : Char) :
    ∀ (fuel : Nat) (prev : Option Char) (l : List Char),
      List.Sublist (removeWordFuel wh wt wlast fuel prev l) l := by
  intro fuel
  induction fuel with
  | zero => intro prev l; exact List.Sublist.refl l
  | succ fuel ih =>
    intro prev l
    cases l with
    | nil => simp [removeWordFuel]
    | cons c rest =>
      simp only [removeWordFuel]
      split
      · exact (ih _ _).trans (List.drop_sublist _ _)
      · exact List.cons_sublist_cons.mpr (ih _ _)

/-- Noise-word removal only removes characters. -/
theorem removeWord_sublist (w s : List Char) : List.Sublist (removeWord w s) s := by
  cases w with
  | nil => exact List.Sublist.refl s
  | cons wh wt => exact removeWordFuel_sublist wh wt _ _ _ _

/-- The whole noise-vocabulary loop only removes characters. -/
theorem foldl_removeWord_sublist :
    ∀ (ws : List String) (s : List Char),
      List.Sublist (ws.foldl (fun acc w => removeWord w.data acc) s) s := by
  intro ws
  induction ws with
  | nil => intro s; exact List.Sublist.refl s
  | cons w ws ih =>
    intro s
    exact (ih (removeWord w.data s)).trans (removeWord_sublist _ _)

/-- Noise removal only removes characters. -/
theorem removeNoiseWords_sublist (s : List Char) : List.Sublist (removeNoiseWords s) s :=
  foldl_removeWord_sublist remove_words s

/-- Every split word is non-empty and whitespace-free (given a
whitespace-free accumulator). -/
theorem splitWsAcc_words_ok :
    ∀ (l cur : List Char), (∀ c ∈ cur, isSpaceChar c = false) →
      ∀ w ∈ splitWsAcc cur l, w ≠ [] ∧ ∀ c ∈ w, isSpaceChar c = false := by
  intro l
  induction l with
  | nil =>
    intro cur hcur w hw
    simp only [splitWsAcc] at hw
    split at hw
    · simp at hw
    · rename_i hne
      simp only [List.mem_singleton] at hw
      subst hw
      refine ⟨?_, ?_⟩
      · simp only [ne_eq, List.reverse_eq_nil_iff]
        intro h
        rw [h] at hne
        simp at hne
      · intro c hc
        rw [List.mem_reverse] at hc
        exact hcur c hc
  | cons x rest ih =>
    intro cur hcur w hw
    simp only [splitWsAcc] at hw
    split at hw
    · split at hw
      · exact ih [] (by simp) w hw
      · rename_i hne
        rcases List.mem_cons.mp hw with h | h
        · subst h
          refine ⟨?_, ?_⟩
          · simp only [ne_eq, List.reverse_eq_nil_iff]
            intro h
            rw [h] at hne
            simp at hne
          · intro c hc
            rw [List.mem_reverse] at hc
            exact hcur c hc
        · exact ih [] (by simp) w h
    · rename_i hx
      refine ih (x :: cur) ?_ w hw
      intro c hc
      rcases List.mem_cons.mp hc with h | h
      · subst h
        simpa using hx
      · exact hcur c h

/-- Characters of split words come from the accumulator or the input. -/
theorem splitWsAcc_chars :
    ∀ (l cur w : List Char) (c : Char),
      w ∈ splitWsAcc cur l → c ∈ w → c ∈ cur ∨ c ∈ l := by
  intro l
  induction l with
  | nil =>
    intro cur w c hw hc
    simp only [splitWsAcc] at hw
    split at hw
    · simp at hw
    · simp only [List.mem_singleton] at hw
      subst hw
      rw [List.mem_reverse] at hc
      exact Or.inl hc
  | cons x rest ih =>
    intro cur w c hw hc
    simp only [splitWsAcc] at hw
    split at hw
    · split at hw
      · rcases ih [] w c hw hc with h | h
        · simp at h
        · exact Or.inr (List.mem_cons_of_mem _ h)
      · rcases List.mem_cons.mp hw with h | h
        · subst h
          rw [List.mem_reverse] at hc
          exact Or.inl hc
        · rcases ih [] w c h hc with h2 | h2
          · simp at h2
          · exact Or.inr (List.mem_cons_of_mem _ h2)
    · rcases ih (x :: cur) w c hw hc with h | h
      · rcases List.mem_cons.mp h with h2 | h2
        · subst h2
          exact Or.inr (List.mem_cons_self _ _)
        · exact Or.inl h2
      · exact Or.inr (List.mem_cons_of_mem _ h)

/-- Characters of a joined word list are separators or word characters. -/
theorem mem_joinWords :
    ∀ (ws : List (List Char)) (c : Char),
      c ∈ joinWords ws → c = ' ' ∨ ∃ w ∈ ws, c ∈ w := by
  intro ws
  induction ws with
  | nil => intro c h; simp [joinWords] at h
  | cons w ws ih =>
    intro c h
    cases ws with
    | nil =>
      right
      exact ⟨w, by simp, h⟩
    | cons w2 ws2 =>
      simp only [joinWords] at h
      rcases List.mem_append.mp h with h2 | h2
      · right
        exact ⟨w, by simp, h2⟩
      · rcases List.mem_cons.mp h2 with h3 | h3
        · exact Or.inl h3
        · rcases ih c h3 with h4 | ⟨w3, hw3, hc3⟩
          · exact Or.inl h4
          · right
            exact ⟨w3, List.mem_cons_of_mem _ hw3, hc3⟩

/-- Joining a list headed by a non-empty word is non-empty. -/
theorem joinWords_ne_nil (w : List Char) (ws : List (List Char)) (hw : w ≠ []) :
    joinWords (w :: ws) ≠ [] := by
  cases ws with
  | nil => exact hw
  | cons w2 ws2 =>
    simp only [joinWords]
    intro h
    rcases List.append_eq_nil.mp h with ⟨_, h2⟩
    cases h2

/-- The head of a joined list is the head of its first word. -/
theorem joinWords_head (w : List Char) (ws : List (List Char)) (hw : w ≠ []) :
    (joinWords (w :: ws)).head? = w.head? := by
  cases ws with
  | nil => rfl
  | cons w2 ws2 =>
    cases w with
    | nil => exact absurd rfl hw
    | cons c w' => rfl

/-- The last character of a joined word list is a character of one of the
words (words assumed non-empty). -/
theorem joinWords_getLast?_nospace :
    ∀ (ws : List (List Char)),
      (∀ w ∈ ws, w ≠ [] ∧ ∀ c ∈ w, isSpaceChar c = false) →
      ∀ c, (joinWords ws).getLast? = some c → isSpaceChar c = false := by
  intro ws
  induction ws with
  | nil => intro _ c h; simp [joinWords] at h
  | cons w ws ih =>
    intro hws c h
    cases ws with
    | nil =>
      exact (hws w (by simp)).2 c (List.mem_of_getLast?_eq_some h)
    | cons w2 ws2 =>
      simp only [joinWords] at h
      rw [List.getLast?_append] at h
      have hne : joinWords (w2 :: ws2) ≠ [] :=
        joinWords_ne_nil w2 ws2 (hws w2 (by simp)).1
      obtain ⟨d, rest, hrest⟩ : ∃ d rest, joinWords (w2 :: ws2) = d :: rest := by
        cases hj : joinWords (w2 :: ws2) with
        | nil => exact absurd hj hne
        | cons d rest => exact ⟨d, rest, rfl⟩
      rw [hrest] at h
      rw [List.getLast?_cons_cons] at h
      have h2 : (joinWords (w2 :: ws2)).getLast? = some c := by
        rw [hrest]
        simpa using h
      exact ih (fun w3 hw3 => hws w3 (List.mem_cons_of_mem _ hw3)) c h2

/-- Splitting `w ++ ' ' :: rest` for a whitespace-free `w` peels off
`acc.reverse ++ w` as one word. -/
theorem splitWsAcc_word_sep :
    ∀ (w acc rest : List Char), (w ≠ [] ∨ acc ≠ []) →
      (∀ c ∈ w, isSpaceChar c = false) →
      splitWsAcc acc (w ++ ' ' :: rest) =
        (acc.reverse ++ w) :: splitWsAcc [] rest := by
  intro w
  induction w with
  | nil =>
    intro acc rest hne _
    have hacc : acc ≠ [] := by
      rcases hne with h | h
      · exact absurd rfl h
      · exact h
    simp only [List.nil_append, splitWsAcc]
    rw [if_pos (by decide : isSpaceChar ' ' = true)]
    rw [if_neg (by simpa using hacc)]
    simp
  | cons c w' ih =>
    intro acc rest _ hsf
    have hc : isSpaceChar c = false := hsf c (by simp)
    simp only [List.cons_append, splitWsAcc, List.append_eq]
    rw [if_neg (by simp [hc])]
    rw [ih (c :: acc) rest (Or.inr (by simp))
      (fun d hd => hsf d (List.mem_cons_of_mem _ hd))]
    simp

/-- Splitting a whitespace-free tail yields one final word. -/
theorem splitWsAcc_last_word :
    ∀ (w acc : List Char), (w ≠ [] ∨ acc ≠ []) →
      (∀ c ∈ w, isSpaceChar c = false) →
      splitWsAcc acc w = [acc.reverse ++ w] := by
  intro w
  induction w with
  | nil =>
    intro acc hne _
    have hacc : acc ≠ [] := by
      rcases hne with h | h
      · exact absurd rfl h
      · exact h
    simp only [splitWsAcc]
    rw [if_neg (by simpa using hacc)]
    simp
  | cons c w' ih =>
    intro acc _ hsf
    have hc : isSpaceChar c = false := hsf c (by simp)
    simp only [splitWsAcc]
    rw [if_neg (by simp [hc])]
    rw [ih (c :: acc) (Or.inr (by simp))
      (fun d hd => hsf d (List.mem_cons_of_mem _ hd))]
    simp

/-- Splitting a join of non-empty whitespace-free words recovers the
words. -/
theorem splitWs_joinWords :
    ∀ (ws : List (List Char)),
      (∀ w ∈ ws, w ≠ [] ∧ ∀ c ∈ w, isSpaceChar c = false) →
      splitWs (joinWords ws) = ws := by
  intro ws
  induction ws with
  | nil => intro _; rfl
  | cons w ws ih =>
    intro h
    obtain ⟨hne, hsf⟩ := h w (by simp)
    cases ws with
    | nil =>
      show splitWsAcc [] w = [w]
      rw [splitWsAcc_last_word w [] (Or.inl hne) hsf]
      rfl
    | cons w2 ws2 =>
      show splitWsAcc [] (w ++ ' ' :: joinWords (w2 :: ws2)) = w :: w2 :: ws2
      rw [splitWsAcc_word_sep w [] (joinWords (w2 :: ws2)) (Or.inl hne) hsf]
      rw [List.reverse_nil, List.nil_append]
      have := ih (fun w3 hw3 => h w3 (List.mem_cons_of_mem _ hw3))
      rw [show splitWsAcc [] (joinWords (w2 :: ws2)) = splitWs (joinWords (w2 :: ws2)) from rfl, this]

/-- Collapsing whitespace is idempotent. -/
theorem collapseWs_idem (s : List Char) :
    collapseWs (collapseWs s) = collapseWs s := by
  unfold collapseWs
  rw [show splitWs (joinWords (splitWs s)) = splitWs s from
    splitWs_joinWords (splitWs s) (splitWsAcc_words_ok s [] (by simp))]

/-- Collapsed strings do not start with whitespace. -/
theorem collapseWs_head_nospace (s : List Char) :
    ∀ c, (collapseWs s).head? = some c → isSpaceChar c = false := by
  intro c h
  unfold collapseWs at h
  cases hsplit : splitWs s with
  | nil =>
    rw [hsplit] at h
    simp [joinWords] at h
  | cons w ws =>
    rw [hsplit] at h
    have hprops := splitWsAcc_words_ok s [] (by simp) w (by rw [show splitWsAcc [] s = splitWs s from rfl, hsplit]; simp)
    rw [joinWords_head w ws hprops.1] at h
    cases w with
    | nil => exact absurd rfl hprops.1
    | cons c0 w' =>
      simp only [List.head?_cons, Option.some.injEq] at h
      subst h
      exact hprops.2 c0 (by simp)

/-- Collapsed strings do not end with whitespace. -/
theorem collapseWs_last_nospace (s : List Char) :
    ∀ c, (collapseWs s).getLast? = some c → isSpaceChar c = false := by
  intro c h
  exact joinWords_getLast?_nospace (splitWs s)
    (splitWsAcc_words_ok s [] (by simp)) c h

/-- Dropping a prefix of characters that are not there is the identity. -/
theorem dropWhile_eq_self_of_head {p : Char → Bool} {l : List Char}
    (h : ∀ c, l.head? = some c → p c = false) : l.dropWhile p = l := by
  cases l with
  | nil => rfl
  | cons c rest =>
    have := h c rfl
    simp [List.dropWhile_cons, this]

/-- Stripping is the identity on strings with no edge whitespace. -/
theorem stripChars_eq_self {l : List Char}
    (h1 : ∀ c, l.head? = some c → isSpaceChar c = false)
    (h2 : ∀ c, l.getLast? = some c → isSpaceChar c = false) :
    stripChars l = l := by
  unfold stripChars
  rw [dropWhile_eq_self_of_head h1]
  rw [dropWhile_eq_self_of_head (by
    intro c hc
    rw [List.head?_reverse] at hc
    exact h2 c hc)]
  exact List.reverse_reverse l

/-- Group removal is the identity when the opening character is absent. -/
theorem stripEnclosedAux_eq_self {op cl : Char} :
    ∀ (l : List Char), (∀ c ∈ l, c ≠ op) →
      stripEnclosedAux op cl none l = l := by
  intro l
  induction l with
  | nil => intro _; rfl
  | cons x rest ih =>
    intro h
    simp only [stripEnclosedAux]
    rw [if_neg (h x (by simp))]
    rw [ih (fun c hc => h c (List.mem_cons_of_mem _ hc))]

/-- Group removal is the identity when the opening character is absent. -/
theorem stripEnclosed_eq_self {op cl : Char} {l : List Char}
    (h : ∀ c ∈ l, c ≠ op) : stripEnclosed op cl l = l :=
  stripEnclosedAux_eq_self l h

/-- Characters of a collapsed `stripNonWord` image are word characters or
spaces. -/
theorem chars_of_collapse_stripNonWord (y : List Char) :
    ∀ c ∈ collapseWs (stripNonWord y), (isWordChar c || isSpaceChar c) = true := by
  intro c hc
  unfold collapseWs at hc
  rcases mem_joinWords _ c hc with rfl | ⟨w, hw, hcw⟩
  · decide
  · have hcx : c ∈ stripNonWord y := by
      have := splitWsAcc_chars (stripNonWord y) [] w c hw hcw
      simpa using this
    exact (List.mem_filter.mp hcx).2

/-- Characters of the normalized artist part are fixed by lower-casing. -/
theorem normalizeArtistChars_lower_fixed (a : List Char) :
    ∀ c ∈ normalizeArtistChars a, lowerChar c = c := by
  intro c hc
  unfold normalizeArtistChars collapseWs at hc
  rcases mem_joinWords _ c hc with rfl | ⟨w, hw, hcw⟩
  · decide
  · have h1 : c ∈ stripNonWord (removeNoiseWords (stripChars (lowerChars a))) := by
      have := splitWsAcc_chars _ [] w c hw hcw
      simpa using this
    have h2 : c ∈ removeNoiseWords (stripChars (lowerChars a)) :=
      (List.mem_filter.mp h1).1
    have h3 : c ∈ stripChars (lowerChars a) :=
      (removeNoiseWords_sublist _).subset h2
    have h4 : c ∈ lowerChars a := mem_stripChars h3
    obtain ⟨c0, _, rfl⟩ := List.mem_map.mp h4
    exact lowerChar_idem c0

/-- Characters of the normalized title part are fixed by lower-casing. -/
theorem normalizeTitleChars_lower_fixed (t : List Char) :
    ∀ c ∈ normalizeTitleChars t, lowerChar c = c := by
  intro c hc
  unfold normalizeTitleChars collapseWs at hc
  rcases mem_joinWords _ c hc with rfl | ⟨w, hw, hcw⟩
  · decide
  · have h1 : c ∈ stripNonWord (removeNoiseWords (stripEnclosed '[' ']'
        (stripEnclosed '(' ')' (stripChars (lowerChars t))))) := by
      have := splitWsAcc_chars _ [] w c hw hcw
      simpa using this
    have h2 := (List.mem_filter.mp h1).1
    have h3 := (removeNoiseWords_sublist _).subset h2
    have h4 := mem_stripEnclosed h3
    have h5 := mem_stripEnclosed h4
    have h6 : c ∈ lowerChars t := mem_stripChars h5
    obtain ⟨c0, _, rfl⟩ := List.mem_map.mp h6
    exact lowerChar_idem c0

/-- The artist pipeline is idempotent on outputs with no remaining noise
words. -/
theorem normalizeArtistChars_idem (a : List Char)
    (hnn : removeNoiseWords (normalizeArtistChars a) = normalizeArtistChars a) :
    normalizeArtistChars (normalizeArtistChars a) = normalizeArtistChars a := by
  have hws : ∀ c ∈ normalizeArtistChars a, (isWordChar c || isSpaceChar c) = true :=
    chars_of_collapse_stripNonWord _
  have h1 : lowerChars (normalizeArtistChars a) = normalizeArtistChars a :=
    map_eq_self_of_fixed _ (normalizeArtistChars_lower_fixed a)
  have h2 : stripChars (normalizeArtistChars a) = normalizeArtistChars a :=
    stripChars_eq_self (collapseWs_head_nospace _) (collapseWs_last_nospace _)
  have h4 : stripNonWord (normalizeArtistChars a) = normalizeArtistChars a :=
    List.filter_eq_self.mpr hws
  have h5 : collapseWs (normalizeArtistChars a) = normalizeArtistChars a :=
    collapseWs_idem _
  show collapseWs (stripNonWord (removeNoiseWords (stripChars
    (lowerChars (normalizeArtistChars a))))) = normalizeArtistChars a
  rw [h1, h2, hnn, h4, h5]

/-- The title pipeline is idempotent on outputs with no remaining noise
words. -/
theorem normalizeTitleChars_idem (t : List Char)
    (hnn : removeNoiseWords (normalizeTitleChars t) = normalizeTitleChars t) :
    normalizeTitleChars (normalizeTitleChars t) = normalizeTitleChars t := by
  have hws : ∀ c ∈ normalizeTitleChars t, (isWordChar c || isSpaceChar c) = true :=
    chars_of_collapse_stripNonWord _
  have hnotop : ∀ (op : Char), isWordChar op = false → isSpaceChar op = false →
      ∀ c ∈ normalizeTitleChars t, c ≠ op := by
    intro op hw hs c hc heq
    subst heq
    have := hws c hc
    rw [hw, hs] at this
    simp at this
  have h1 : lowerChars (normalizeTitleChars t) = normalizeTitleChars t :=
    map_eq_self_of_fixed _ (normalizeTitleChars_lower_fixed t)
  have h2 : stripChars (normalizeTitleChars t) = normalizeTitleChars t :=
    stripChars_eq_self (collapseWs_head_nospace _) (collapseWs_last_nospace _)
  have h2p : stripEnclosed '(' ')' (normalizeTitleChars t) = normalizeTitleChars t :=
    stripEnclosed_eq_self (hnotop '(' (by decide) (by decide))
  have h2b : stripEnclosed '[' ']' (normalizeTitleChars t) = normalizeTitleChars t :=
    stripEnclosed_eq_self (hnotop '[' (by decide) (by decide))
  have h4 : stripNonWord (normalizeTitleChars t) = normalizeTitleChars t :=
    List.filter_eq_self.mpr hws
  have h5 : collapseWs (normalizeTitleChars t) = normalizeTitleChars t :=
    collapseWs_idem _
  show collapseWs (stripNonWord (removeNoiseWords (stripEnclosed '[' ']'
    (stripEnclosed '(' ')' (stripChars (lowerChars (normalizeTitleChars t))))))) =
      normalizeTitleChars t
  rw [h1, h2, h2p, h2b, hnn, h4, h5]

/-- Unfolding helper: the characters of a packed string. -/
theorem data_mk (l : List Char) : (String.mk l).data = l := rfl

/-- The normalizer maps an empty artist to the empty key part. -/
theorem normalize_artist_empty : normalize_artist "" = "" := by decide

/-- The normalizer maps an empty title to the empty key part. -/
theorem normalize_title_empty : normalize_title "" = "" := by decide

/-- C9 (amended).  Re-normalizing the parts of a produced key returns the
key unchanged, provided both normalized parts are non-empty and neither
still contains a noise word (removal is the identity on them).  Both
provisos are necessary: an empty part trips the emptiness guard (see the
`"x - "` half of the counterexample), and punctuation stripping can expose a
fresh noise word that a second pass then deletes (the `"m!ix"` half). -/
theorem normalize_idempotent_on_clean_keys (a t : String)
    (hA : normalize_artist a ≠ "") (hT : normalize_title t ≠ "")
    (hnA : removeNoiseWords (normalizeArtistChars a.data) = normalizeArtistChars a.data)
    (hnT : removeNoiseWords (normalizeTitleChars t.data) = normalizeTitleChars t.data) :
    normalize_track_name (normalize_artist a) (normalize_title t) =
      normalize_track_name a t := by
  have ha : a ≠ "" := by
    intro h
    rw [h] at hA
    exact hA normalize_artist_empty
  have ht : t ≠ "" := by
    intro h
    rw [h] at hT
    exact hT normalize_title_empty
  unfold normalize_track_name
  rw [if_neg (by simp [hA, hT]), if_neg (by simp [ha, ht])]
  simp only [normalize_artist, normalize_title, data_mk]
  rw [normalizeArtistChars_idem a.data hnA, normalizeTitleChars_idem t.data hnT]

/-- Witness for C9 at a concrete already-clean pair. -/
theorem normalize_idempotent_on_clean_keys_witness :
    normalize_track_name (normalize_artist "Daft Punk") (normalize_title "One More Time") =
      normalize_track_name "Daft Punk" "One More Time" :=
  normalize_idempotent_on_clean_keys "Daft Punk" "One More Time"
    (by decide) (by decide) (by decide) (by decide)

/-- Counterexample for C9 as stated: normalizing `("x", "m!ix")` yields the
key `"x - mix"` (the `!` is stripped *after* noise-word removal, exposing
`mix`), whose split is `("x", "mix")`; re-normalizing that pair removes the
noise word `mix` and returns `"x - "`, not the same key. -/
theorem renormalizing_can_change_the_key :
    normalize_track_name "x" "m!ix" = "x - mix" ∧
    "x - mix" = "x" ++ " - " ++ "mix" ∧
    normalize_track_name "x" "mix" = "x - " := by
  refine ⟨by decide, rfl, by decide⟩

end SetDecoder

